import Mathlib

/-!
Verification of the QIDI auto Z-offset calibration module
(`auto_z_offset.py`, the full variant, and `auto_z_offset_lite.py`, the
lite variant).  The development shallowly embeds the calibration state
machine: the Z-stepper current guard, the multi-sample tolerance/retry/
trim/average probing session, the acceleration override around probing
moves, the single-run offset measurement, and the top-level calibrate
command.  Floats are modelled as rationals; G-code side effects are
modelled as explicit command traces.
-/

/-- A G-code command issued by the module, as recorded in a trace.
`set_tmc_current` models `SET_TMC_CURRENT STEPPER=... CURRENT=...`,
`set_gcode_offset` models `SET_GCODE_OFFSET Z=... MOVE=0`,
`m204` models `M204 S...`, and `run_prepare` models rendering and running
the configured `prepare_gcode` template. -/
inductive Gcmd where
  | set_tmc_current (stepper : String) (current : ℚ)
  | set_gcode_offset (z : ℚ)
  | m204 (s : ℚ)
  | run_prepare
  deriving DecidableEq, Repr

/-- State of `ZStepperCurrentHelper` (identical logic in both source
variants): the cached nominal run currents discovered at ready time, the
configured reduction factor, and the two state flags `_is_reduced` and
`_hold`. -/
structure ZStepperCurrentHelper where
  saved_currents : List (String × ℚ)
  probe_current_factor : ℚ
  is_reduced : Bool
  hold : Bool
  deriving DecidableEq, Repr

/-- Embeds `ZStepperCurrentHelper.reduce`: no-op when already reduced;
otherwise issue one `SET_TMC_CURRENT` at `nominal * factor` per cached
stepper and set `_is_reduced`.  Returns the new state and the commands
issued. -/
def ZStepperCurrentHelper.reduce (h : ZStepperCurrentHelper) :
    ZStepperCurrentHelper × List Gcmd :=
  if h.is_reduced then (h, [])
  else ({ h with is_reduced := true },
        h.saved_currents.map
          (fun p => Gcmd.set_tmc_current p.1 (p.2 * h.probe_current_factor)))

/-- Embeds `ZStepperCurrentHelper.restore`: no-op when not reduced or when
held by an outer loop; otherwise issue one `SET_TMC_CURRENT` at the nominal
current per cached stepper and clear `_is_reduced`. -/
def ZStepperCurrentHelper.restore (h : ZStepperCurrentHelper) :
    ZStepperCurrentHelper × List Gcmd :=
  if !h.is_reduced || h.hold then (h, [])
  else ({ h with is_reduced := false },
        h.saved_currents.map (fun p => Gcmd.set_tmc_current p.1 p.2))

/-- Python `max` over the z values of the collected samples (the source
extracts z via `_get_pos_z`; samples are modelled by their z value).  The
empty case never arises in the source. -/
def zmax : List ℚ → ℚ
  | [] => 0
  | z :: zs => zs.foldl max z

/-- Python `min` over the z values of the collected samples. -/
def zmin : List ℚ → ℚ
  | [] => 0
  | z :: zs => zs.foldl min z

/-- The sample spread `max(z_positions) - min(z_positions)` checked against
`samples_tolerance` in `AutoZOffsetSessionHelper.run_probe`. -/
def spread (l : List ℚ) : ℚ := zmax l - zmin l

/-- Embeds the sampling loop of `AutoZOffsetSessionHelper.run_probe`
(`while len(positions) < sample_count`): each iteration consumes the next
raw trigger z from `stream`, appends it, and checks the spread of the
samples collected so far against `samples_tolerance`; on a violation the
attempt either fails (retry budget `maxR` reached) or restarts from an
empty sample list with the retry counter incremented.  `none` means the
modelled input stream ran out before the loop finished. -/
def collect_samples (sc : ℕ) (tol : ℚ) (maxR : ℕ) (stream : List ℚ)
    (retries : ℕ) (positions : List ℚ) : Option (Except Unit (List ℚ)) :=
  if sc ≤ positions.length then some (Except.ok positions)
  else
    match stream with
    | [] => none
    | z :: rest =>
      let ps := positions ++ [z]
      if tol < spread ps then
        if maxR ≤ retries then some (Except.error ())
        else collect_samples sc tol maxR rest (retries + 1) []
      else collect_samples sc tol maxR rest retries ps

/-- Python `positions.sort(key=_get_pos_z)`: a stable sort by z.  On the
z values themselves any comparison sort yields the same list. -/
def sortZ (l : List ℚ) : List ℚ := l.insertionSort (· ≤ ·)

/-- Embeds `positions.sort(key=_get_pos_z); positions = positions[1:-1]`:
discard the first and last element of the z-sorted sample list. -/
def trim_positions (l : List ℚ) : List ℚ := ((sortZ l).drop 1).dropLast

/-- The `samples_result` policy of the probe parameter helper. -/
inductive SamplesResult where
  | average
  | median
  deriving DecidableEq, Repr

/-- Modelled from the spec: `probe.calc_probe_z_average` (upstream Klipper
`probe.py`, not part of this repository) reduces the remaining samples by
the configured result policy — default arithmetic mean, alternative
median (middle element, or mean of the two middle elements for an even
count). -/
def calc_probe_z_average (positions : List ℚ) : SamplesResult → ℚ
  | SamplesResult.average => positions.sum / (positions.length : ℚ)
  | SamplesResult.median =>
    let s := sortZ positions
    let n := s.length
    if n % 2 = 1 then s.getD (n / 2) 0
    else (s.getD (n / 2 - 1) 0 + s.getD (n / 2) 0) / 2

/-- Embeds the result computation at the end of
`AutoZOffsetSessionHelper.run_probe`: sort by z, trim the extremes,
subtract the main probe z offset from each remaining sample, and reduce
by the configured result policy. -/
def run_probe_result (probe_z_offset : ℚ) (method : SamplesResult)
    (positions : List ℚ) : ℚ :=
  calc_probe_z_average
    ((trim_positions positions).map (fun z => z - probe_z_offset)) method

/-- Embeds `AutoZOffsetSessionHelper.run_probe` end to end: collect
samples under the tolerance/retry loop, then trim and reduce. -/
def run_probe (sc : ℕ) (tol : ℚ) (maxR : ℕ) (method : SamplesResult)
    (probe_z_offset : ℚ) (stream : List ℚ) : Option (Except Unit ℚ) :=
  match collect_samples sc tol maxR stream 0 [] with
  | none => none
  | some (Except.error e) => some (Except.error e)
  | some (Except.ok ps) =>
    some (Except.ok (run_probe_result probe_z_offset method ps))

/-- Module state threaded through the calibrate command: the current
guard, the prepare-suppression flag, the stored `calibrated_z_offset`,
the trace of issued G-code commands, and the values written to the
configfile. -/
structure AZState where
  z_current : ZStepperCurrentHelper
  skip_prepare : Bool
  calibrated_z_offset : ℚ
  gcode : List Gcmd
  config_writes : List ℚ
  deriving DecidableEq, Repr

/-- One iteration of the calibrate measuring loop as it touches the
modelled state: `cmd_measure_offset` probes under
`z_current.reduce()` / `z_current.restore()` (both no-ops while the outer
loop holds the guard) and either returns a measured offset or raises,
which the oracle value `r` supplies. -/
def measure_step (s : AZState) (r : Except Unit ℚ) : AZState × Except Unit ℚ :=
  let rc := s.z_current.reduce
  let rr := rc.1.restore
  ({ s with z_current := rr.1, gcode := s.gcode ++ rc.2 ++ rr.2 }, r)

/-- The `for _ in range(self.offset_samples)` accumulation loop of the
calibrate command, with one oracle entry per run; an exception in a run
aborts the remaining runs and propagates. -/
def measure_loop : List (Except Unit ℚ) → AZState → AZState × Except Unit ℚ
  | [], s => (s, Except.ok 0)
  | r :: rs, s =>
    let step := measure_step s r
    match step.2 with
    | Except.error e => (step.1, Except.error e)
    | Except.ok v =>
      let rest := measure_loop rs step.1
      match rest.2 with
      | Except.error e => (rest.1, Except.error e)
      | Except.ok total => (rest.1, Except.ok (v + total))

/-- The pre-loop steps of the calibrate command: clear the runtime gcode
offset, run `prepare_gcode` once, suppress per-run prepare, reduce the Z
current and set the guard hold flag. -/
def calibrate_prep (s : AZState) : AZState :=
  let s1 : AZState :=
    { s with gcode := s.gcode ++ [Gcmd.set_gcode_offset 0, Gcmd.run_prepare],
             skip_prepare := true }
  let rc := s1.z_current.reduce
  { s1 with z_current := { rc.1 with hold := true },
            gcode := s1.gcode ++ rc.2 }

/-- The `finally` block of the calibrate command: clear the hold flag,
restore the Z current, re-enable per-run prepare. -/
def calibrate_cleanup (s : AZState) : AZState :=
  let z1 : ZStepperCurrentHelper := { s.z_current with hold := false }
  let rr := z1.restore
  { s with z_current := rr.1, gcode := s.gcode ++ rr.2, skip_prepare := false }

/-- Embeds `cmd_AUTO_Z_CALIBRATE` (full variant) / `cmd_calibrate` (lite
variant): prepare, run the measuring loop, always run the cleanup, then on
success average the accumulated offsets over `offset_samples` (the length
of `runs`), invert the sign once, apply the result as the runtime gcode
offset (`cmd_AUTO_Z_LOAD_OFFSET`) and write it to the configfile
(`_store_z_offset`).  On a loop exception the error propagates after
cleanup and none of the averaging/apply/persist steps run. -/
def cmd_calibrate (runs : List (Except Unit ℚ)) (s : AZState) :
    AZState × Except Unit Unit :=
  let s1 := calibrate_prep s
  let lr := measure_loop runs s1
  let s2 := calibrate_cleanup lr.1
  match lr.2 with
  | Except.error e => (s2, Except.error e)
  | Except.ok total =>
    let z := -(total / (runs.length : ℚ))
    ({ s2 with calibrated_z_offset := z,
               gcode := s2.gcode ++ [Gcmd.set_gcode_offset z],
               config_writes := s2.config_writes ++ [z] }, Except.ok ())

/-- Recognises the runtime gcode-offset commands in a trace. -/
def is_set_gcode_offset : Gcmd → Bool
  | Gcmd.set_gcode_offset _ => true
  | _ => false

/-- Toolhead acceleration context for the acceleration override: the
current `max_accel` limit, a counter of reads of that limit, and the trace
of `M204` values issued. -/
structure ToolheadAccel where
  max_accel : ℚ
  reads : ℕ
  m204_cmds : List ℚ
  deriving DecidableEq, Repr

/-- Embeds `AutoZOffset._probe_bed_sensor` (lite variant): when
`probe_accel > 0`, read the current `max_accel`, issue `M204` at the
override, run the probing move, and restore the old value in a `finally`
block; when `probe_accel` is zero the acceleration limit is neither read
nor modified.  The same read/override/restore logic forms the
`probe_prepare` / `probe_finish` pair of the full variant, whose
`probe_finish` the homing framework invokes as cleanup.  `probing_fails`
says whether the probing move raises; the error propagates after the
restore. -/
def probe_bed_sensor (probe_accel : ℚ) (probing_fails : Bool)
    (t : ToolheadAccel) : ToolheadAccel × Except Unit Unit :=
  let step1 : Option ℚ × ToolheadAccel :=
    if 0 < probe_accel then
      (some t.max_accel,
       { t with reads := t.reads + 1,
                m204_cmds := t.m204_cmds ++ [probe_accel],
                max_accel := probe_accel })
    else (none, t)
  let res : Except Unit Unit :=
    if probing_fails then Except.error () else Except.ok ()
  let t2 : ToolheadAccel :=
    match step1.1 with
    | some a =>
      { step1.2 with m204_cmds := step1.2.m204_cmds ++ [a], max_accel := a }
    | none => step1.2
  (t2, res)

/-- Embeds the measurement and reporting of
`cmd_AUTO_Z_MEASURE_OFFSET` (full variant): the pair is (value printed in
the diagnostic message, value returned to the caller).  The source prints
`true_offset * -1.0` and returns `true_offset = last_z_result -
inductive_probe_result_z`. -/
def cmd_AUTO_Z_MEASURE_OFFSET_report (last_z_result inductive_z : ℚ) :
    ℚ × ℚ :=
  ((last_z_result - inductive_z) * (-1), last_z_result - inductive_z)

/-- Embeds the measurement and reporting of `cmd_measure_offset` (lite
variant): the source prints `offset` itself (no negation) and returns
`offset = last_bed_z - inductive_z`. -/
def cmd_measure_offset_report (last_bed_z inductive_z : ℚ) : ℚ × ℚ :=
  (last_bed_z - inductive_z, last_bed_z - inductive_z)

/-- A value of the status dictionary returned by `get_status`. -/
inductive StatusVal where
  | str (s : String)
  | coord (x y z : ℚ)
  | num (q : ℚ)
  deriving DecidableEq, Repr

/-- The fields of `AutoZOffsetCommandHelper` read by its `get_status`. -/
structure CommandHelperState where
  name : String
  last_probe_x : ℚ
  last_probe_y : ℚ
  last_probe_z : ℚ
  last_z_result : ℚ
  deriving DecidableEq, Repr

/-- Embeds `AutoZOffsetCommandHelper.get_status` (full variant): returns
the status dictionary together with the (unchanged) module state. -/
def AutoZOffsetCommandHelper.get_status (st : CommandHelperState) :
    List (String × StatusVal) × CommandHelperState :=
  ([("name", StatusVal.str st.name),
    ("last_probe_position",
      StatusVal.coord st.last_probe_x st.last_probe_y st.last_probe_z),
    ("last_z_result", StatusVal.num st.last_z_result)], st)

/-- The fields of the lite `AutoZOffset` read by its `get_status`. -/
structure AutoZOffsetLiteState where
  last_bed_z : ℚ
  calibrated_z_offset : ℚ
  deriving DecidableEq, Repr

/-- Embeds `AutoZOffset.get_status` (lite variant). -/
def AutoZOffset.get_status (st : AutoZOffsetLiteState) :
    List (String × StatusVal) × AutoZOffsetLiteState :=
  ([("last_bed_z", StatusVal.num st.last_bed_z),
    ("calibrated_z_offset", StatusVal.num st.calibrated_z_offset)], st)

/-- A concrete current-guard state used by witnesses: one discovered Z
stepper, not reduced, held by an outer loop. -/
def guardSample : ZStepperCurrentHelper :=
  { saved_currents := [("stepper_z", 1)], probe_current_factor := 33/100,
    is_reduced := false, hold := true }

/-- A concrete module state used by witnesses. -/
def azSample : AZState :=
  { z_current := { saved_currents := [], probe_current_factor := 33/100,
                   is_reduced := false, hold := false },
    skip_prepare := false, calibrated_z_offset := 7/2, gcode := [],
    config_writes := [] }

/-- A concrete toolhead acceleration context used by witnesses. -/
def accelSample : ToolheadAccel :=
  { max_accel := 5000, reads := 0, m204_cmds := [] }

/-- C4: the current-guard state invariant: `restore()` issues no driver
command and leaves the state unchanged whenever the hold flag is set or
the guard is not currently reduced, and `reduce()` is idempotent — two
consecutive calls issue the set-current command set exactly once. -/
theorem current_guard_invariant (h : ZStepperCurrentHelper) :
    (h.hold = true ∨ h.is_reduced = false → h.restore = (h, []))
    ∧ (h.reduce.1.reduce.2 = [])
    ∧ (h.is_reduced = false →
        h.reduce.2 ++ h.reduce.1.reduce.2
          = h.saved_currents.map
              (fun p => Gcmd.set_tmc_current p.1 (p.2 * h.probe_current_factor))) := by
  refine ⟨?_, ?_, ?_⟩
  · rintro (hh | hr)
    · unfold ZStepperCurrentHelper.restore
      simp [hh]
    · unfold ZStepperCurrentHelper.restore
      simp [hr]
  · unfold ZStepperCurrentHelper.reduce
    by_cases hr : h.is_reduced <;> simp [hr]
  · intro hr
    unfold ZStepperCurrentHelper.reduce
    simp [hr]

/-- Witness for C4 at the concrete guard state `guardSample` (held, not
reduced). -/
theorem current_guard_invariant_witness :
    (guardSample.restore = (guardSample, []))
    ∧ (guardSample.reduce.1.reduce.2 = [])
    ∧ (guardSample.reduce.2 ++ guardSample.reduce.1.reduce.2
        = guardSample.saved_currents.map
            (fun p => Gcmd.set_tmc_current p.1 (p.2 * guardSample.probe_current_factor))) :=
  ⟨(current_guard_invariant guardSample).1 (Or.inl rfl),
   (current_guard_invariant guardSample).2.1,
   (current_guard_invariant guardSample).2.2 rfl⟩

/-- C6: around a probing move, a non-zero configured `probe_accel` causes
the acceleration limit to be read once, overridden, and restored to the
prior value in guaranteed cleanup regardless of whether the probing move
raised; a zero `probe_accel` leaves the acceleration context untouched
(never read, never modified). -/
theorem probe_accel_guard (pa : ℚ) (f : Bool) (t : ToolheadAccel) :
    (0 < pa →
        (probe_bed_sensor pa f t).1.max_accel = t.max_accel
        ∧ (probe_bed_sensor pa f t).1.m204_cmds = t.m204_cmds ++ [pa, t.max_accel]
        ∧ (probe_bed_sensor pa f t).1.reads = t.reads + 1
        ∧ (probe_bed_sensor pa f t).2
            = (if f then Except.error () else Except.ok ()))
    ∧ (pa = 0 →
        (probe_bed_sensor pa f t).1 = t
        ∧ (probe_bed_sensor pa f t).2
            = (if f then Except.error () else Except.ok ())) := by
  constructor
  · intro hpa
    unfold probe_bed_sensor
    simp [hpa]
  · intro hpa
    subst hpa
    unfold probe_bed_sensor
    simp

/-- Witness for C6: override 2 with a failing probing move is restored;
override 0 with a successful move touches nothing. -/
theorem probe_accel_guard_witness :
    ((probe_bed_sensor 2 true accelSample).1.max_accel = accelSample.max_accel
      ∧ (probe_bed_sensor 2 true accelSample).1.m204_cmds
          = accelSample.m204_cmds ++ [2, accelSample.max_accel]
      ∧ (probe_bed_sensor 2 true accelSample).1.reads = accelSample.reads + 1
      ∧ (probe_bed_sensor 2 true accelSample).2
          = (if true then Except.error () else Except.ok ()))
    ∧ ((probe_bed_sensor 0 false accelSample).1 = accelSample
      ∧ (probe_bed_sensor 0 false accelSample).2
          = (if false then Except.error () else Except.ok ())) :=
  ⟨(probe_accel_guard 2 true accelSample).1 (by norm_num),
   (probe_accel_guard 0 false accelSample).2 rfl⟩

/-- C7 counterexample: in the lite variant, at `last_bed_z = 1` and
`inductive_z = 0` the diagnostic message prints the unnegated offset `1`,
not `true_offset * -1 = -1`, refuting the claim that every single-run
measurement reports the negated value. -/
theorem measure_report_negation_cex :
    (cmd_measure_offset_report 1 0).2 = (1 : ℚ) - 0
    ∧ ¬ ((cmd_measure_offset_report 1 0).1 = ((1 : ℚ) - 0) * (-1)) := by
  constructor
  · rfl
  · norm_num [cmd_measure_offset_report]

/-- C7 amended: both variants compute and return the unnegated
`true_offset = last_bed_z - reference_z`; the full variant prints
`true_offset * -1` in its diagnostic while the lite variant prints the
unnegated value. -/
theorem measure_report_sign (b r : ℚ) :
    (cmd_AUTO_Z_MEASURE_OFFSET_report b r).1 = (b - r) * (-1)
    ∧ (cmd_AUTO_Z_MEASURE_OFFSET_report b r).2 = b - r
    ∧ (cmd_measure_offset_report b r).1 = b - r
    ∧ (cmd_measure_offset_report b r).2 = b - r :=
  ⟨rfl, rfl, rfl, rfl⟩

/-- C8 counterexample: the full variant status dictionary has no
`calibrated_z_offset` key and the lite variant status dictionary has no
`last_probe_position` key, so neither variant exposes all three claimed
fields. -/
theorem get_status_keys_cex :
    ¬ ("calibrated_z_offset"
        ∈ (AutoZOffsetCommandHelper.get_status
            { name := "auto_z_offset", last_probe_x := 0, last_probe_y := 0,
              last_probe_z := 0, last_z_result := 0 }).1.map Prod.fst)
    ∧ ¬ ("last_probe_position"
        ∈ (AutoZOffset.get_status
            { last_bed_z := 0, calibrated_z_offset := 0 }).1.map Prod.fst) := by
  constructor <;>
    simp [AutoZOffsetCommandHelper.get_status, AutoZOffset.get_status]

/-- C8 amended: the full variant status exposes exactly `name`,
`last_probe_position` and `last_z_result`, the lite variant exposes
exactly `last_bed_z` and `calibrated_z_offset`; both return the values of
the corresponding state fields and leave the module state unchanged. -/
theorem get_status_snapshot (stF : CommandHelperState)
    (stL : AutoZOffsetLiteState) :
    ((AutoZOffsetCommandHelper.get_status stF).1.map Prod.fst
        = ["name", "last_probe_position", "last_z_result"])
    ∧ (AutoZOffsetCommandHelper.get_status stF).2 = stF
    ∧ ((AutoZOffset.get_status stL).1.map Prod.fst
        = ["last_bed_z", "calibrated_z_offset"])
    ∧ (AutoZOffset.get_status stL).2 = stL
    ∧ ((AutoZOffsetCommandHelper.get_status stF).1.lookup "last_z_result"
        = some (StatusVal.num stF.last_z_result))
    ∧ ((AutoZOffset.get_status stL).1.lookup "calibrated_z_offset"
        = some (StatusVal.num stL.calibrated_z_offset)) := by
  refine ⟨rfl, rfl, rfl, rfl, ?_, ?_⟩ <;>
    simp [AutoZOffsetCommandHelper.get_status, AutoZOffset.get_status,
      List.lookup]

/-- Helper: the commands issued by `reduce()` contain no gcode-offset
command. -/
lemma reduce_no_offset (h : ZStepperCurrentHelper) :
    h.reduce.2.filter is_set_gcode_offset = [] := by
  unfold ZStepperCurrentHelper.reduce
  by_cases hr : h.is_reduced
  · simp [hr]
  · simp only [hr, if_false, Bool.false_eq_true]
    rw [List.filter_eq_nil_iff]
    intro c hc
    obtain ⟨p, _, rfl⟩ := List.mem_map.mp hc
    simp [is_set_gcode_offset]

/-- Helper: the commands issued by `restore()` contain no gcode-offset
command. -/
lemma restore_no_offset (h : ZStepperCurrentHelper) :
    h.restore.2.filter is_set_gcode_offset = [] := by
  unfold ZStepperCurrentHelper.restore
  by_cases hr : !h.is_reduced || h.hold
  · simp [hr]
  · simp only [hr, if_false, Bool.false_eq_true]
    rw [List.filter_eq_nil_iff]
    intro c hc
    obtain ⟨p, _, rfl⟩ := List.mem_map.mp hc
    simp [is_set_gcode_offset]

/-- Helper: one measuring-loop iteration leaves `calibrated_z_offset`,
the configfile writes and the applied gcode offsets untouched. -/
lemma measure_step_frame (s : AZState) (r : Except Unit ℚ) :
    (measure_step s r).1.calibrated_z_offset = s.calibrated_z_offset
    ∧ (measure_step s r).1.config_writes = s.config_writes
    ∧ (measure_step s r).1.gcode.filter is_set_gcode_offset
        = s.gcode.filter is_set_gcode_offset := by
  refine ⟨rfl, rfl, ?_⟩
  show ((s.gcode ++ s.z_current.reduce.2 ++ s.z_current.reduce.1.restore.2).filter
    is_set_gcode_offset) = s.gcode.filter is_set_gcode_offset
  rw [List.filter_append, List.filter_append, reduce_no_offset,
    restore_no_offset]
  simp

/-- Helper: the whole measuring loop leaves `calibrated_z_offset`, the
configfile writes and the applied gcode offsets untouched, whatever the
per-run outcomes. -/
lemma measure_loop_frame (rs : List (Except Unit ℚ)) :
    ∀ s : AZState,
      (measure_loop rs s).1.calibrated_z_offset = s.calibrated_z_offset
      ∧ (measure_loop rs s).1.config_writes = s.config_writes
      ∧ (measure_loop rs s).1.gcode.filter is_set_gcode_offset
          = s.gcode.filter is_set_gcode_offset := by
  induction rs with
  | nil => intro s; exact ⟨rfl, rfl, rfl⟩
  | cons r rs ih =>
    intro s
    obtain ⟨hs1, hs2, hs3⟩ := measure_step_frame s r
    simp only [measure_loop]
    cases hr : (measure_step s r).2 with
    | error e => exact ⟨hs1, hs2, hs3⟩
    | ok v =>
      obtain ⟨hi1, hi2, hi3⟩ := ih (measure_step s r).1
      cases hrest : (measure_loop rs (measure_step s r).1).2 with
      | error e =>
        exact ⟨hi1.trans hs1, hi2.trans hs2, hi3.trans hs3⟩
      | ok total =>
        exact ⟨hi1.trans hs1, hi2.trans hs2, hi3.trans hs3⟩

/-- Helper: on an all-successful oracle the measuring loop accumulates
exactly the sum of the measured offsets. -/
lemma measure_loop_ok (rs : List ℚ) :
    ∀ s : AZState, (measure_loop (rs.map Except.ok) s).2 = Except.ok rs.sum := by
  induction rs with
  | nil => intro s; simp [measure_loop]
  | cons r rs ih =>
    intro s
    simp only [List.map_cons, measure_loop]
    have hstep : (measure_step s (Except.ok r)).2 = Except.ok r := rfl
    rw [hstep]
    rw [ih (measure_step s (Except.ok r)).1]
    simp [List.sum_cons]

/-- Helper: field effects of the pre-loop calibrate steps. -/
lemma calibrate_prep_fields (s : AZState) :
    (calibrate_prep s).calibrated_z_offset = s.calibrated_z_offset
    ∧ (calibrate_prep s).config_writes = s.config_writes
    ∧ (calibrate_prep s).gcode.filter is_set_gcode_offset
        = s.gcode.filter is_set_gcode_offset ++ [Gcmd.set_gcode_offset 0] := by
  refine ⟨rfl, rfl, ?_⟩
  show ((s.gcode ++ [Gcmd.set_gcode_offset 0, Gcmd.run_prepare])
          ++ ({ s with
                gcode := s.gcode ++ [Gcmd.set_gcode_offset 0, Gcmd.run_prepare],
                skip_prepare := true } : AZState).z_current.reduce.2).filter
        is_set_gcode_offset
      = s.gcode.filter is_set_gcode_offset ++ [Gcmd.set_gcode_offset 0]
  rw [List.filter_append, List.filter_append, reduce_no_offset]
  simp [is_set_gcode_offset]

/-- Helper: the calibrate cleanup always clears the hold flag, restores
the current (leaving the guard not reduced) and re-enables per-run
prepare, while leaving the offset, the configfile writes and the applied
gcode offsets untouched. -/
lemma calibrate_cleanup_fields (s : AZState) :
    (calibrate_cleanup s).z_current.hold = false
    ∧ (calibrate_cleanup s).z_current.is_reduced = false
    ∧ (calibrate_cleanup s).skip_prepare = false
    ∧ (calibrate_cleanup s).calibrated_z_offset = s.calibrated_z_offset
    ∧ (calibrate_cleanup s).config_writes = s.config_writes
    ∧ (calibrate_cleanup s).gcode.filter is_set_gcode_offset
        = s.gcode.filter is_set_gcode_offset := by
  have hfil : ((s.z_current.saved_currents.map
      (fun p => Gcmd.set_tmc_current p.1 p.2)).filter is_set_gcode_offset) = [] := by
    rw [List.filter_eq_nil_iff]
    intro c hc
    obtain ⟨p, _, rfl⟩ := List.mem_map.mp hc
    simp [is_set_gcode_offset]
  by_cases hr : s.z_current.is_reduced <;>
    refine ⟨?_, ?_, rfl, rfl, rfl, ?_⟩ <;>
      simp [calibrate_cleanup, ZStepperCurrentHelper.restore, hr,
        List.filter_append, hfil]

/-- C5: the calibrate cleanup runs on every exit path — whether the
measuring loop completes or one of its iterations raises, the resulting
state has the hold flag cleared, the Z current restored (guard no longer
reduced) and the per-run prepare re-enabled. -/
theorem cmd_calibrate_cleanup_always (runs : List (Except Unit ℚ)) (s : AZState) :
    (cmd_calibrate runs s).1.z_current.hold = false
    ∧ (cmd_calibrate runs s).1.skip_prepare = false
    ∧ (cmd_calibrate runs s).1.z_current.is_reduced = false := by
  obtain ⟨hh, hir, hsp, _, _, _⟩ :=
    calibrate_cleanup_fields (measure_loop runs (calibrate_prep s)).1
  simp only [cmd_calibrate]
  cases hres : (measure_loop runs (calibrate_prep s)).2 with
  | error e => simp [hres, hh, hsp, hir]
  | ok total => simp [hres, hh, hsp, hir]

/-- C10: if any iteration of the measuring loop raises, the calibrate
command propagates the error after cleanup, `calibrated_z_offset` keeps
its pre-call value, nothing is written to the configfile, and the only
gcode-offset command issued is the initial `SET_GCODE_OFFSET Z=0` clear —
averaging, apply and persist never run. -/
theorem cmd_calibrate_atomic_on_error (runs : List (Except Unit ℚ))
    (s : AZState) (e : Unit)
    (h : (measure_loop runs (calibrate_prep s)).2 = Except.error e) :
    (cmd_calibrate runs s).2 = Except.error e
    ∧ (cmd_calibrate runs s).1.calibrated_z_offset = s.calibrated_z_offset
    ∧ (cmd_calibrate runs s).1.config_writes = s.config_writes
    ∧ (cmd_calibrate runs s).1.gcode.filter is_set_gcode_offset
        = s.gcode.filter is_set_gcode_offset ++ [Gcmd.set_gcode_offset 0] := by
  obtain ⟨hp1, hp2, hp3⟩ := calibrate_prep_fields s
  obtain ⟨hm1, hm2, hm3⟩ := measure_loop_frame runs (calibrate_prep s)
  obtain ⟨_, _, _, hc1, hc2, hc3⟩ :=
    calibrate_cleanup_fields (measure_loop runs (calibrate_prep s)).1
  simp only [cmd_calibrate, h]
  exact ⟨trivial, hc1.trans (hm1.trans hp1), hc2.trans (hm2.trans hp2),
    hc3.trans (hm3.trans hp3)⟩

/-- Witness for C10: a single-run calibrate whose only measurement raises
leaves the offset, the configfile and the applied offsets alone. -/
theorem cmd_calibrate_atomic_on_error_witness :
    (cmd_calibrate [Except.error ()] azSample).2 = Except.error ()
    ∧ (cmd_calibrate [Except.error ()] azSample).1.calibrated_z_offset
        = azSample.calibrated_z_offset
    ∧ (cmd_calibrate [Except.error ()] azSample).1.config_writes
        = azSample.config_writes
    ∧ (cmd_calibrate [Except.error ()] azSample).1.gcode.filter is_set_gcode_offset
        = azSample.gcode.filter is_set_gcode_offset ++ [Gcmd.set_gcode_offset 0] :=
  cmd_calibrate_atomic_on_error [Except.error ()] azSample () rfl

/-- Helper: on an all-successful oracle the calibrate command stores the
sign-inverted average of the measured offsets. -/
lemma cmd_calibrate_ok_offset (rs : List ℚ) (s : AZState) :
    (cmd_calibrate (rs.map Except.ok) s).1.calibrated_z_offset
      = -(rs.sum / (rs.length : ℚ)) := by
  simp only [cmd_calibrate, measure_loop_ok rs (calibrate_prep s)]
  simp [List.length_map]

/-- C1: a full calibration over `offset_samples = N ≥ 1` runs with
measured true offsets `r_1 .. r_N` stores
`calibrated_z_offset = -((r_1 + ... + r_N) / N)` — summed, divided by the
run count, sign-inverted exactly once; with the three runs
0.10, 0.12, 0.11 the stored value is -0.11. -/
theorem cmd_calibrate_average (rs : List ℚ) (s : AZState)
    (_h : 1 ≤ rs.length) :
    (cmd_calibrate (rs.map Except.ok) s).1.calibrated_z_offset
        = -(rs.sum / (rs.length : ℚ))
    ∧ (cmd_calibrate (([1/10, 12/100, 11/100] : List ℚ).map Except.ok)
          s).1.calibrated_z_offset = -(11/100) := by
  refine ⟨cmd_calibrate_ok_offset rs s, ?_⟩
  rw [cmd_calibrate_ok_offset ([1/10, 12/100, 11/100] : List ℚ) s]
  norm_num

/-- Witness for C1 at the three concrete runs of the claim. -/
theorem cmd_calibrate_average_witness :
    (cmd_calibrate (([1/10, 12/100, 11/100] : List ℚ).map Except.ok)
          azSample).1.calibrated_z_offset
        = -(([1/10, 12/100, 11/100] : List ℚ).sum
            / ((([1/10, 12/100, 11/100] : List ℚ).length : ℕ) : ℚ))
    ∧ (cmd_calibrate (([1/10, 12/100, 11/100] : List ℚ).map Except.ok)
          azSample).1.calibrated_z_offset = -(11/100) :=
  cmd_calibrate_average [1/10, 12/100, 11/100] azSample (by norm_num)

/-- Helper: any successfully returned sample set has exactly `sc` samples
and, unless empty, a spread within tolerance; proved by induction over
the modelled probe stream with the loop invariant that the samples
accumulated so far are empty or within tolerance. -/
lemma collect_samples_ok_invariant (sc maxR : ℕ) (tol : ℚ) :
    ∀ (stream : List ℚ) (retries : ℕ) (positions ps : List ℚ),
      positions.length ≤ sc → (positions = [] ∨ spread positions ≤ tol) →
      collect_samples sc tol maxR stream retries positions
          = some (Except.ok ps) →
      ps.length = sc ∧ (ps = [] ∨ spread ps ≤ tol) := by
  intro stream
  induction stream with
  | nil =>
    intro retries positions ps hlen hinv heq
    rw [collect_samples] at heq
    by_cases hsc : sc ≤ positions.length
    · rw [if_pos hsc] at heq
      obtain rfl : positions = ps := by simpa using heq
      exact ⟨Nat.le_antisymm hlen hsc, hinv⟩
    · rw [if_neg hsc] at heq
      cases heq
  | cons z rest ih =>
    intro retries positions ps hlen hinv heq
    rw [collect_samples] at heq
    by_cases hsc : sc ≤ positions.length
    · rw [if_pos hsc] at heq
      obtain rfl : positions = ps := by simpa using heq
      exact ⟨Nat.le_antisymm hlen hsc, hinv⟩
    · rw [if_neg hsc] at heq
      simp only at heq
      by_cases hsp : tol < spread (positions ++ [z])
      · rw [if_pos hsp] at heq
        by_cases hret : maxR ≤ retries
        · rw [if_pos hret] at heq
          simp at heq
        · rw [if_neg hret] at heq
          exact ih (retries + 1) [] ps (Nat.zero_le sc) (Or.inl rfl) heq
      · rw [if_neg hsp] at heq
        refine ih retries (positions ++ [z]) ps ?_ (Or.inr (not_lt.mp hsp)) heq
        have : positions.length < sc := Nat.lt_of_not_le hsc
        simpa using this

/-- C2: the sampling session checks the spread of the samples collected
so far after every new sample; a returned sample set always has exactly
`sample_count` samples with spread within `samples_tolerance`, and on a
violation the loop fails with the sampling-tolerance error exactly when
the retry budget is exhausted, and otherwise discards all samples of the
attempt, increments the retry counter and restarts from an empty set. -/
theorem run_probe_tolerance_retry (sc maxR : ℕ) (tol : ℚ) :
    (∀ (stream ps : List ℚ), 1 ≤ sc →
        collect_samples sc tol maxR stream 0 [] = some (Except.ok ps) →
        ps.length = sc ∧ spread ps ≤ tol)
    ∧ (∀ (z : ℚ) (rest : List ℚ) (retries : ℕ) (positions : List ℚ),
        positions.length < sc → spread (positions ++ [z]) > tol →
        collect_samples sc tol maxR (z :: rest) retries positions =
          if maxR ≤ retries then some (Except.error ())
          else collect_samples sc tol maxR rest (retries + 1) []) := by
  constructor
  · intro stream ps hsc heq
    obtain ⟨hlen, hinv⟩ := collect_samples_ok_invariant sc maxR tol stream 0 []
      ps (Nat.zero_le sc) (Or.inl rfl) heq
    refine ⟨hlen, ?_⟩
    rcases hinv with rfl | hsp
    · rw [List.length_nil] at hlen
      omega
    · exact hsp
  · intro z rest retries positions hlen hsp
    conv_lhs => rw [collect_samples]
    rw [if_neg (Nat.not_le.mpr hlen)]
    simp only []
    rw [if_pos hsp]

/-- Witness for C2: a stream of three identical samples passes and has
zero spread; a mid-attempt sample at spread 1 over tolerance 1/100 with
an exhausted retry budget takes the failure branch of the step
equation. -/
theorem run_probe_tolerance_retry_witness :
    (([(1:ℚ), 1, 1] : List ℚ).length = 3 ∧ spread [(1:ℚ), 1, 1] ≤ 1/100)
    ∧ collect_samples 3 (1/100) 0 [(2:ℚ), 1, 1] 0 [1]
        = (if (0:ℕ) ≤ 0 then some (Except.error ())
           else collect_samples 3 (1/100) 0 [1, 1] (0 + 1) []) := by
  constructor
  · exact (run_probe_tolerance_retry 3 0 (1/100)).1 [1, 1, 1] [1, 1, 1]
      (by norm_num)
      (by norm_num [collect_samples, spread, zmax, zmin])
  · exact (run_probe_tolerance_retry 3 0 (1/100)).2 2 [1, 1] 0 [1]
      (by norm_num)
      (by norm_num [spread, zmax, zmin])

/-- Helper: a left fold of `min` never exceeds its seed. -/
lemma foldl_min_le_init (zs : List ℚ) : ∀ a : ℚ, zs.foldl min a ≤ a := by
  induction zs with
  | nil => intro a; exact le_refl a
  | cons z zs ih =>
    intro a
    exact le_trans (ih (min a z)) (min_le_left a z)

/-- Helper: a left fold of `min` never exceeds any list element. -/
lemma foldl_min_le_mem (zs : List ℚ) :
    ∀ (a x : ℚ), x ∈ zs → zs.foldl min a ≤ x := by
  induction zs with
  | nil => intro a x hx; cases hx
  | cons z zs ih =>
    intro a x hx
    rcases List.mem_cons.mp hx with rfl | hx
    · exact le_trans (foldl_min_le_init zs (min a x)) (min_le_right a x)
    · exact ih (min a z) x hx

/-- Helper: a left fold of `min` is the seed or a list element. -/
lemma foldl_min_mem (zs : List ℚ) :
    ∀ a : ℚ, zs.foldl min a = a ∨ zs.foldl min a ∈ zs := by
  induction zs with
  | nil => intro a; exact Or.inl rfl
  | cons z zs ih =>
    intro a
    rcases ih (min a z) with h | h
    · rcases min_choice a z with h2 | h2
      · exact Or.inl (by rw [List.foldl_cons, h, h2])
      · refine Or.inr ?_
        rw [List.foldl_cons, h, h2]
        exact List.mem_cons_self z zs
    · exact Or.inr (List.mem_cons_of_mem z h)

/-- Helper: a left fold of `max` dominates its seed. -/
lemma foldl_max_init_le (zs : List ℚ) : ∀ a : ℚ, a ≤ zs.foldl max a := by
  induction zs with
  | nil => intro a; exact le_refl a
  | cons z zs ih =>
    intro a
    exact le_trans (le_max_left a z) (ih (max a z))

/-- Helper: a left fold of `max` dominates every list element. -/
lemma foldl_max_mem_le (zs : List ℚ) :
    ∀ (a x : ℚ), x ∈ zs → x ≤ zs.foldl max a := by
  induction zs with
  | nil => intro a x hx; cases hx
  | cons z zs ih =>
    intro a x hx
    rcases List.mem_cons.mp hx with rfl | hx
    · exact le_trans (le_max_right a x) (foldl_max_init_le zs (max a x))
    · exact ih (max a z) x hx

/-- Helper: a left fold of `max` is the seed or a list element. -/
lemma foldl_max_mem (zs : List ℚ) :
    ∀ a : ℚ, zs.foldl max a = a ∨ zs.foldl max a ∈ zs := by
  induction zs with
  | nil => intro a; exact Or.inl rfl
  | cons z zs ih =>
    intro a
    rcases ih (max a z) with h | h
    · rcases max_choice a z with h2 | h2
      · exact Or.inl (by rw [List.foldl_cons, h, h2])
      · refine Or.inr ?_
        rw [List.foldl_cons, h, h2]
        exact List.mem_cons_self z zs
    · exact Or.inr (List.mem_cons_of_mem z h)

/-- Helper: `zmin` is a lower bound of the list. -/
lemma zmin_le (l : List ℚ) (x : ℚ) (hx : x ∈ l) : zmin l ≤ x := by
  cases l with
  | nil => cases hx
  | cons a zs =>
    rcases List.mem_cons.mp hx with rfl | hx
    · exact foldl_min_le_init zs x
    · exact foldl_min_le_mem zs a x hx

/-- Helper: `zmin` of a nonempty list is one of its elements. -/
lemma zmin_mem (l : List ℚ) (hne : l ≠ []) : zmin l ∈ l := by
  cases l with
  | nil => exact absurd rfl hne
  | cons a zs =>
    rcases foldl_min_mem zs a with h | h
    · show zs.foldl min a ∈ a :: zs
      rw [h]
      exact List.mem_cons_self a zs
    · exact List.mem_cons_of_mem a h

/-- Helper: `zmax` is an upper bound of the list. -/
lemma le_zmax (l : List ℚ) (x : ℚ) (hx : x ∈ l) : x ≤ zmax l := by
  cases l with
  | nil => cases hx
  | cons a zs =>
    rcases List.mem_cons.mp hx with rfl | hx
    · exact foldl_max_init_le zs x
    · exact foldl_max_mem_le zs a x hx

/-- Helper: `zmax` of a nonempty list is one of its elements. -/
lemma zmax_mem (l : List ℚ) (hne : l ≠ []) : zmax l ∈ l := by
  cases l with
  | nil => exact absurd rfl hne
  | cons a zs =>
    rcases foldl_max_mem zs a with h | h
    · show zs.foldl max a ∈ a :: zs
      rw [h]
      exact List.mem_cons_self a zs
    · exact List.mem_cons_of_mem a h

/-- Helper: the head of a sorted list is a lower bound. -/
lemma sorted_head_le {a : ℚ} {t : List ℚ} (hs : List.Sorted (· ≤ ·) (a :: t)) :
    ∀ x ∈ a :: t, a ≤ x := by
  intro x hx
  rcases List.mem_cons.mp hx with rfl | hx
  · exact le_refl x
  · exact (List.sorted_cons.mp hs).1 x hx

/-- Helper: the last element of a sorted list is an upper bound. -/
lemma sorted_le_getLast : ∀ (l : List ℚ), List.Sorted (· ≤ ·) l →
    ∀ (hne : l ≠ []) (x : ℚ), x ∈ l → x ≤ l.getLast hne := by
  intro l
  induction l with
  | nil => intro _ hne; exact absurd rfl hne
  | cons a t ih =>
    intro hs hne x hx
    cases t with
    | nil =>
      rcases List.mem_cons.mp hx with rfl | h0
      · exact le_refl x
      · cases h0
    | cons b t2 =>
      have hne2 : b :: t2 ≠ [] := List.cons_ne_nil b t2
      show x ≤ (b :: t2).getLast hne2
      have hs2 := List.sorted_cons.mp hs
      rcases List.mem_cons.mp hx with rfl | hxt
      · exact hs2.1 _ (List.getLast_mem hne2)
      · exact ih hs2.2 hne2 x hxt

/-- Helper: the sorted sample list permutes the raw samples. -/
lemma sortZ_perm (l : List ℚ) : List.Perm (sortZ l) l :=
  List.perm_insertionSort _ l

/-- Helper: the sorted sample list is sorted by z. -/
lemma sortZ_sorted (l : List ℚ) : List.Sorted (· ≤ ·) (sortZ l) :=
  List.sorted_insertionSort _ l

/-- Helper: for at least two samples, the sorted list decomposes as the
minimum, then the trimmed samples, then the maximum — i.e. the trim
discards exactly one minimal and one maximal sample. -/
lemma sortZ_decomp (l : List ℚ) (h : 2 ≤ l.length) :
    sortZ l = zmin l :: (trim_positions l ++ [zmax l]) := by
  have hp := sortZ_perm l
  have hs := sortZ_sorted l
  have hlen : (sortZ l).length = l.length := hp.length_eq
  have hne : l ≠ [] := by
    intro h0; rw [h0] at h; simp at h
  have hneS : sortZ l ≠ [] := by
    intro h0; rw [h0] at hlen; rw [← hlen] at h; simp at h
  obtain ⟨a, t, hat⟩ := List.exists_cons_of_ne_nil hneS
  have htne : t ≠ [] := by
    intro h0
    rw [hat, h0] at hlen
    rw [← hlen] at h
    simp at h
  rw [hat] at hp hs
  have hmin : zmin l = a := by
    refine le_antisymm (zmin_le l a (hp.mem_iff.mp (List.mem_cons_self a t))) ?_
    exact sorted_head_le hs (zmin l) (hp.mem_iff.mpr (zmin_mem l hne))
  have hmax : zmax l = t.getLast htne := by
    refine le_antisymm ?_ (le_zmax l (t.getLast htne)
      (hp.mem_iff.mp (List.mem_cons_of_mem a (List.getLast_mem htne))))
    have h2 := sorted_le_getLast (a :: t) hs (List.cons_ne_nil a t) (zmax l)
      (hp.mem_iff.mpr (zmax_mem l hne))
    exact le_trans h2 (le_of_eq (List.getLast_cons htne))
  have htrim : trim_positions l = t.dropLast := by
    show ((sortZ l).drop 1).dropLast = t.dropLast
    rw [hat]
    rfl
  rw [hat, hmin, hmax, htrim]
  congr 1
  exact (List.dropLast_append_getLast htne).symm

/-- C3: the sampled-probe result sorts by z and discards exactly the
minimum and the maximum (the raw samples are a permutation of minimum,
trimmed set, maximum), then subtracts the probe z offset and reduces by
the result policy; on the z list 1.0, 5.0, 2.0, 2.1 the trimmed set is
2.0, 2.1 (excluding 1.0 and 5.0) and the mean is 2.05. -/
theorem run_probe_trim_average (l : List ℚ) (h : 2 ≤ l.length) :
    List.Perm (zmin l :: (trim_positions l ++ [zmax l])) l
    ∧ trim_positions [1, 5, 2, 21/10] = [2, 21/10]
    ∧ run_probe_result 0 SamplesResult.average [1, 5, 2, 21/10] = 41/20 := by
  refine ⟨?_, ?_, ?_⟩
  · rw [← sortZ_decomp l h]
    exact sortZ_perm l
  · norm_num [trim_positions, sortZ, List.insertionSort, List.orderedInsert]
  · norm_num [run_probe_result, calc_probe_z_average, trim_positions, sortZ,
      List.insertionSort, List.orderedInsert]

/-- Witness for C3 at the concrete sample list of the claim. -/
theorem run_probe_trim_average_witness :
    List.Perm
      (zmin [1, 5, 2, 21/10]
        :: (trim_positions [1, 5, 2, 21/10] ++ [zmax [1, 5, 2, 21/10]]))
      [1, 5, 2, 21/10]
    ∧ trim_positions [1, 5, 2, 21/10] = [2, 21/10]
    ∧ run_probe_result 0 SamplesResult.average [1, 5, 2, 21/10] = 41/20 :=
  run_probe_trim_average [1, 5, 2, 21/10] (by norm_num)

/-- C9 counterexample: the implementation has no guard on
`sample_count`: with `sample_count = 2` the sampling session completes,
the trim yields the empty set, and the averaging step is reached on that
empty set — there is no explicit rejection of configurations below 3. -/
theorem run_probe_two_samples_cex :
    collect_samples 2 0 0 [1, 1] 0 [] = some (Except.ok [(1:ℚ), 1])
    ∧ trim_positions [(1:ℚ), 1] = []
    ∧ run_probe 2 0 0 SamplesResult.average 0 [1, 1]
        = some (Except.ok (calc_probe_z_average [] SamplesResult.average)) := by
  refine ⟨?_, ?_, ?_⟩
  · norm_num [collect_samples, spread, zmax, zmin]
  · norm_num [trim_positions, sortZ, List.insertionSort, List.orderedInsert]
  · norm_num [run_probe, collect_samples, spread, zmax, zmin,
      run_probe_result, trim_positions, sortZ, List.insertionSort,
      List.orderedInsert]

/-- C9 amended: the trim needs `sample_count ≥ 3` to leave a nonempty
set; for `sample_count = 2` any in-tolerance pair of samples is accepted
by the session and the subsequent trim yields the empty set — the
implementation does not reject sample counts below 3. -/
theorem run_probe_two_samples_trim_empty (z1 z2 tol : ℚ) (maxR : ℕ)
    (h : spread [z1, z2] ≤ tol) :
    collect_samples 2 tol maxR [z1, z2] 0 [] = some (Except.ok [z1, z2])
    ∧ trim_positions [z1, z2] = [] := by
  have h0 : (0:ℚ) ≤ tol := by
    have hle : zmin [z1, z2] ≤ zmax [z1, z2] :=
      zmin_le [z1, z2] (zmax [z1, z2]) (zmax_mem [z1, z2] (by simp))
    have : (0:ℚ) ≤ spread [z1, z2] := by
      rw [spread]
      linarith
    linarith
  constructor
  · have hn1 : ¬ tol < spread [z1] := by
      rw [show spread [z1] = 0 from by simp [spread, zmax, zmin]]
      exact not_lt.mpr h0
    have hn2 : ¬ tol < spread [z1, z2] := not_lt.mpr h
    rw [collect_samples]
    rw [if_neg (by simp)]
    simp only []
    rw [if_neg (by simpa using hn1)]
    rw [collect_samples]
    rw [if_neg (by simp)]
    simp only []
    rw [if_neg (by simpa using hn2)]
    rw [collect_samples]
    rw [if_pos (by simp)]
    simp
  · have hlen2 : (sortZ [z1, z2]).length = 2 := by
      have := (sortZ_perm [z1, z2]).length_eq
      simpa using this
    have hlen0 : (trim_positions [z1, z2]).length = 0 := by
      show (((sortZ [z1, z2]).drop 1).dropLast).length = 0
      rw [List.length_dropLast, List.length_drop, hlen2]
    exact List.eq_nil_of_length_eq_zero hlen0

/-- Witness for C9 at a concrete in-tolerance pair. -/
theorem run_probe_two_samples_trim_empty_witness :
    collect_samples 2 0 0 [(3:ℚ), 3] 0 [] = some (Except.ok [(3:ℚ), 3])
    ∧ trim_positions [(3:ℚ), 3] = [] :=
  run_probe_two_samples_trim_empty 3 3 0 0
    (by norm_num [spread, zmax, zmin])
